import Mathlib

/-!
Shallow embedding of the download pipeline of `videos-midjourney.py`
(Flask video-download service): the JSON record store (`load_videos`,
`save_videos`, `save_new_videos`, `mark_as_downloaded`), the
`DownloadManager` run coordinator, the temp-file verifier
`verify_temp_file_is_ok`, the `requests`-based transport
`download_with_requests` with its 403 alternate-URL rule, and the
background batch loop `download_pending_videos_background`.

Python dicts read with `.get` are modelled with `Option` fields; Python
integers are `Int` where they can go negative (the manager's counters)
and `Nat` where they are sizes/counts; the JSON file on disk is a small
inductive (`absent`, undecodable, or a decoded document); network I/O is
an oracle passed explicitly; exceptions are explicit flags; time is an
abstract `Nat`.
-/

/-- A stored job record, one element of the `"videos"` list of
`videos.json`.  `videoName` / `videoUrl` are `Option` because the code
reads them with `dict.get` (they may be absent); `downloaded` defaults
to `False` everywhere the code reads it (`v.get('downloaded', False)`). -/
structure Video where
  videoName : Option String
  videoUrl : Option String
  downloaded : Bool
deriving DecidableEq, Repr

/-- An incoming job entry of an ingestion payload
(`{"videos": [{videoName, videoUrl}, ...]}`): an id and a url, either of
which may be absent.  Such an entry carries no `downloaded` key, so
`v.setdefault("downloaded", False)` in `save_new_videos` always sets it
to `False`. -/
structure InVideo where
  videoName : Option String
  videoUrl : Option String
deriving DecidableEq, Repr

/-- The state of the persisted `videos.json` file: missing, present but
not decodable as JSON (`json.JSONDecodeError`), or a decoded document
whose `"videos"` key holds `videos` (`none` when the key is absent,
matching `data.get("videos", [])`). -/
inductive PersistedFile where
  | absent : PersistedFile
  | invalidJson : PersistedFile
  | json : Option (List Video) → PersistedFile
deriving DecidableEq, Repr

/-- `load_videos()`: returns the `"videos"` list, or `[]` when the file
is missing, fails to decode, or lacks the key. -/
def load_videos : PersistedFile → List Video
  | .absent => []
  | .invalidJson => []
  | .json v => v.getD []

/-- `save_videos(videos)`: rewrites the whole file as
`{"videos": videos}`, whatever was there before. -/
def save_videos (videos : List Video) (_fs : PersistedFile) : PersistedFile :=
  .json (some videos)

/-- Python truthiness test `not name` on the value of
`v.get("videoName")`: true when the key is absent or the name is the
empty string. -/
def falsyName : Option String → Bool
  | none => true
  | some s => s == ""

/-- The record persisted for an incoming entry: the entry itself with
`downloaded` set to `False` by `v.setdefault("downloaded", False)`. -/
def toRecord (v : InVideo) : Video :=
  { videoName := v.videoName, videoUrl := v.videoUrl, downloaded := false }

/-- `any(v.get("videoName") == some n for v in vs)`: whether some stored
record carries the name `n`; this is membership in the
`existing_names` set of `save_new_videos` for non-falsy `n`. -/
def hasName (vs : List Video) (n : String) : Bool :=
  vs.any (fun v => v.videoName == some n)

/-- One step of building the `unique_incoming` insertion-ordered dict of
`save_new_videos`: skip a falsy name, skip a name already seen in this
call, otherwise append the entry (with `downloaded := false`). -/
def ingestStep (acc : List Video) (v : InVideo) : List Video :=
  match v.videoName with
  | none => acc
  | some n => if n == "" then acc else if hasName acc n then acc else acc ++ [toRecord v]

/-- The values of the `unique_incoming` dict of `save_new_videos`, in
insertion order: first occurrence of each non-falsy `videoName`. -/
def unique_incoming (l : List InVideo) : List Video :=
  l.foldl ingestStep []

/-- The `name not in existing_names` test of the `to_add` comprehension
of `save_new_videos` (every `unique_incoming` value has a non-falsy
name, so the `none` arm is never hit). -/
def keepNew (existing : List Video) (w : Video) : Bool :=
  match w.videoName with
  | some n => !hasName existing n
  | none => false

/-- `save_new_videos(new_videos)`: dedupe the incoming entries, drop the
ones whose name is already in the store, append the remainder (writing
the file only when something is added), and return how many were added. -/
def save_new_videos (l : List InVideo) (fs : PersistedFile) : Nat × PersistedFile :=
  let existing := load_videos fs
  let to_add := (unique_incoming l).filter (keepNew existing)
  if to_add.isEmpty then (0, fs)
  else (to_add.length, save_videos (existing ++ to_add) fs)

/-- `mark_as_downloaded(videos, video_name)`: set `downloaded = True` on
the first record whose `videoName` equals the given name; return the
updated list and whether a match was found. -/
def mark_as_downloaded : List Video → String → List Video × Bool
  | [], _ => ([], false)
  | v :: vs, n =>
    if v.videoName == some n then ({ v with downloaded := true } :: vs, true)
    else
      let r := mark_as_downloaded vs n
      (v :: r.1, r.2)

/-- The `DownloadManager` coordinator state.  The Python `Lock` is not a
field (the embedding is sequential); `download_thread` is `true` when a
thread object is stored, `false` for `None`; `start_time` is an abstract
timestamp.  Counters are `Int` like Python integers. -/
structure DownloadManager where
  is_downloading : Bool := false
  pending_count : Int := 0
  completed_count : Int := 0
  total_count : Int := 0
  batch_number : Int := 0
  download_thread : Bool := false
  start_time : Option Nat := none
deriving DecidableEq, Repr

/-- `DownloadManager.start_batch(pending_count)`. -/
def start_batch (m : DownloadManager) (pending_count : Nat) : DownloadManager :=
  { m with
    batch_number := m.batch_number + 1
    pending_count := (pending_count : Int)
    total_count := (pending_count : Int)
    completed_count := 0 }

/-- `DownloadManager.start_download()` at time `now`: refuse when
already downloading, otherwise flip to downloading, zero the batch
number, record the start time, and admit. -/
def start_download (m : DownloadManager) (now : Nat) : Bool × DownloadManager :=
  if m.is_downloading then (false, m)
  else (true, { m with is_downloading := true, batch_number := 0, start_time := some now })

/-- `DownloadManager.update_progress()`. -/
def update_progress (m : DownloadManager) : DownloadManager :=
  { m with completed_count := m.completed_count + 1, pending_count := m.pending_count - 1 }

/-- `DownloadManager.finish_download()`: clears `is_downloading`,
`pending_count`, `download_thread` and `start_time` — and nothing else. -/
def finish_download (m : DownloadManager) : DownloadManager :=
  { m with
    is_downloading := false
    pending_count := 0
    download_thread := false
    start_time := none }

/-- `verify_temp_file_is_ok(temp_path, min_size_bytes=8192)`: the temp
file (modelled by its size, `none` when it does not exist, which raises
`FileNotFoundError` in `os.path.getsize`) must be strictly larger than
the threshold. -/
def verify_temp_file_is_ok (temp : Option Nat) (min_size_bytes : Nat := 8192) : Bool :=
  match temp with
  | none => false
  | some size => if size ≤ min_size_bytes then false else true

-- ---------------------------------------------------------------
-- Transport: download_with_requests
-- ---------------------------------------------------------------

/-- Python `url.replace('/0.mp4', '.mp4')` on the character list:
replace every (leftmost, non-overlapping) occurrence of `/0.mp4` by
`.mp4`. -/
def replace0mp4 : List Char → List Char
  | '/' :: '0' :: '.' :: 'm' :: 'p' :: '4' :: rest => '.' :: 'm' :: 'p' :: '4' :: replace0mp4 rest
  | c :: rest => c :: replace0mp4 rest
  | [] => []

/-- The alternate URL tried by `download_with_requests` on a first-attempt
403: `url.replace('/0.mp4', '.mp4')`. -/
def alt_url_of (url : String) : String :=
  String.mk (replace0mp4 url.data)

/-- Python `url.endswith('/0.mp4')`. -/
def endswith_0mp4 (url : String) : Bool :=
  "/0.mp4".data.isSuffixOf url.data

/-- Modelled from the spec: "the URL with that trailing `/0.mp4` suffix
stripped (replaced by `.mp4`)" — drop the final 6 characters and append
`.mp4`.  Stated only to compare with `alt_url_of`, the URL the code
actually requests. -/
def spec_alt_url (url : String) : String :=
  String.mk (url.data.take (url.data.length - 6) ++ ".mp4".data)

/-- One HTTP GET response, reduced to what the transport inspects: the
status code and the number of body bytes that streaming writes to the
temp file. -/
structure Resp where
  status : Nat
  size : Nat
deriving DecidableEq, Repr

/-- `Response.raise_for_status()`: raises exactly for 4xx and 5xx. -/
def raise_for_status (r : Resp) : Bool :=
  decide (400 ≤ r.status ∧ r.status < 600)

/-- One iteration of the retry loop of `download_with_requests` at index
`attempt`, with `o` the network oracle and `cnt` the count of GETs
issued so far.  Returns the temp-file size if a body was written without
an exception (`none` when `raise_for_status` fired), the new GET count,
and the URLs requested, in order.  The 403 alternate-URL swap happens
only when `attempt == 1` and the URL ends in `/0.mp4`. -/
def requests_attempt (o : Nat → Resp) (cnt : Nat) (url : String) (attempt : Nat) :
    Option Nat × Nat × List String :=
  let r := o cnt
  if r.status == 403 && attempt == 1 && endswith_0mp4 url then
    let alt := alt_url_of url
    let r2 := o (cnt + 1)
    if raise_for_status r2 then (none, cnt + 2, [url, alt])
    else (some r2.size, cnt + 2, [url, alt])
  else
    if raise_for_status r then (none, cnt + 1, [url])
    else (some r.size, cnt + 1, [url])

/-- The `for attempt in range(1, max_retries + 1)` loop of
`download_with_requests` (last argument: attempts remaining): after each
written body the temp file is verified with the default threshold;
success returns immediately, anything else cleans up and retries.
Returns the overall result and the full request trace. -/
def requests_loop (o : Nat → Resp) (url : String) : Nat → Nat → Nat → Bool × List String
  | _attempt, _cnt, 0 => (false, [])
  | attempt, cnt, remaining + 1 =>
    let a := requests_attempt o cnt url attempt
    match a.1 with
    | some sz =>
      if verify_temp_file_is_ok (some sz) then (true, a.2.2)
      else
        let r := requests_loop o url (attempt + 1) a.2.1 remaining
        (r.1, a.2.2 ++ r.2)
    | none =>
      let r := requests_loop o url (attempt + 1) a.2.1 remaining
      (r.1, a.2.2 ++ r.2)

/-- `download_with_requests(url, final_path, max_retries=2)`, returning
`(success, urls requested in order)`. -/
def download_with_requests (o : Nat → Resp) (url : String) (max_retries : Nat := 2) :
    Bool × List String :=
  requests_loop o url 1 0 max_retries

-- ---------------------------------------------------------------
-- Batch runner: download_pending_videos_background
-- ---------------------------------------------------------------

/-- The `videoName` values present in a store, in order. -/
def definedNames (vs : List Video) : List String :=
  vs.filterMap (fun v => v.videoName)

/-- How many records are marked `downloaded`. -/
def downloadedCount (vs : List Video) : Nat :=
  (vs.filter (fun v => v.downloaded)).length

/-- `[v for v in videos if not v.get('downloaded', False)]`. -/
def pendingOf (vs : List Video) : List Video :=
  vs.filter (fun v => !v.downloaded)

/-- Observable events of a run of the background loop: a reload-and-scan
of the store (with the pending count found), a `start_batch`, an
`update_progress`, and a `finish_download`. -/
inductive Ev where
  | scan : Nat → Ev
  | startBatch : Nat → Ev
  | progress : Ev
  | finish : Ev
deriving DecidableEq, Repr

/-- Whether an event is a store scan. -/
def isScanEv : Ev → Bool
  | .scan _ => true
  | _ => false

/-- Number of store scans in a trace. -/
def countScan (evs : List Ev) : Nat :=
  (evs.filter isScanEv).length

/-- Result of the `for idx, video in enumerate(pending, ...)` loop of one
batch: final manager and store, GET/download counter, the
`batch_success` / `batch_fail` tallies, whether an exception escaped
(a `KeyError` from `video['videoUrl']` / `video['videoName']`), and the
events emitted. -/
structure JobsOut where
  mgr : DownloadManager
  store : List Video
  cnt : Nat
  batch_success : Nat
  batch_fail : Nat
  exc : Bool
  evs : List Ev
deriving DecidableEq, Repr

/-- The per-job loop of one batch of
`download_pending_videos_background`.  `o` is the download oracle: the
outcome that `download_video_with_retry` (which catches its own
exceptions and returns a bool) reports for the k-th download of the
run.  For each job: read `videoUrl` and `videoName` (a missing key
raises, aborting the whole loop); on download success reload the store
(sequentially: the store we carry), `mark_as_downloaded`, and only if a
record was found `save_videos` and `update_progress`; `batch_success`
counts every successful download, `batch_fail` every failed one. -/
def run_jobs (o : Nat → Bool) : List Video → Nat → DownloadManager → List Video → JobsOut
  | [], cnt, mgr, store => ⟨mgr, store, cnt, 0, 0, false, []⟩
  | job :: rest, cnt, mgr, store =>
    match job.videoUrl, job.videoName with
    | some _, some name =>
      if o cnt then
        let m := mark_as_downloaded store name
        if m.2 then
          let r := run_jobs o rest (cnt + 1) (update_progress mgr) m.1
          ⟨r.mgr, r.store, r.cnt, r.batch_success + 1, r.batch_fail, r.exc, Ev.progress :: r.evs⟩
        else
          let r := run_jobs o rest (cnt + 1) mgr store
          ⟨r.mgr, r.store, r.cnt, r.batch_success + 1, r.batch_fail, r.exc, r.evs⟩
      else
        let r := run_jobs o rest (cnt + 1) mgr store
        ⟨r.mgr, r.store, r.cnt, r.batch_success, r.batch_fail + 1, r.exc, r.evs⟩
    | _, _ => ⟨mgr, store, cnt, 0, 0, true, []⟩

/-- Result of the `while True` loop: as `JobsOut`, plus cumulative
tallies and a `fuelOut` marker — `true` only when the structural fuel of
the embedding ran out, which corresponds to no exit of the Python loop
(the theorems below supply enough fuel for this never to happen). -/
structure LoopOut where
  mgr : DownloadManager
  store : List Video
  cnt : Nat
  total_success : Nat
  total_fail : Nat
  exc : Bool
  fuelOut : Bool
  evs : List Ev
deriving DecidableEq, Repr

/-- The `while True` loop of `download_pending_videos_background`: each
iteration reloads the store, filters the pending records, exits when
none remain, otherwise runs `start_batch` and one per-job loop; an
escaped exception exits; a batch with zero successes and at least one
failure breaks out; otherwise loop again. -/
def run_loop (o : Nat → Bool) : Nat → Nat → DownloadManager → List Video → LoopOut
  | 0, cnt, mgr, store => ⟨mgr, store, cnt, 0, 0, false, true, []⟩
  | fuel + 1, cnt, mgr, store =>
    let pending := pendingOf store
    if pending.isEmpty then
      ⟨mgr, store, cnt, 0, 0, false, false, [Ev.scan pending.length]⟩
    else
      let r := run_jobs o pending cnt (start_batch mgr pending.length) store
      if r.exc then
        ⟨r.mgr, r.store, r.cnt, r.batch_success, r.batch_fail, true, false,
          Ev.scan pending.length :: Ev.startBatch pending.length :: r.evs⟩
      else if r.batch_success == 0 && decide (0 < r.batch_fail) then
        ⟨r.mgr, r.store, r.cnt, r.batch_success, r.batch_fail, false, false,
          Ev.scan pending.length :: Ev.startBatch pending.length :: r.evs⟩
      else
        let rest := run_loop o fuel r.cnt r.mgr r.store
        ⟨rest.mgr, rest.store, rest.cnt, r.batch_success + rest.total_success,
          r.batch_fail + rest.total_fail, rest.exc, rest.fuelOut,
          Ev.scan pending.length :: Ev.startBatch pending.length :: (r.evs ++ rest.evs)⟩

/-- Result of one call of `download_pending_videos_background`. -/
structure RunOut where
  admitted : Bool
  mgr : DownloadManager
  store : List Video
  fuelOut : Bool
  evs : List Ev
deriving DecidableEq, Repr

/-- `download_pending_videos_background()`: try to admit the run via
`start_download` (returning immediately when another run is active);
then run the `while True` loop inside `try`, and — this is the
`finally` — apply `finish_download` whatever way the loop ended
(normal break, abort break, or escaped exception). -/
def download_pending_videos_background (o : Nat → Bool) (fuel : Nat)
    (mgr : DownloadManager) (store : List Video) (now : Nat) : RunOut :=
  let s := start_download mgr now
  if s.1 then
    let r := run_loop o fuel 0 s.2 store
    ⟨true, finish_download r.mgr, r.store, r.fuelOut, r.evs ++ [Ev.finish]⟩
  else ⟨false, mgr, store, false, []⟩

-- ---------------------------------------------------------------
-- Theorems
-- ---------------------------------------------------------------

/-- C2: with the default threshold 8192, verification rejects a file of
any size up to and including 8192 bytes, accepts a file of 8193 bytes,
and rejects a missing file. -/
theorem C2_verify_boundary (s : Nat) (h : s ≤ 8192) :
    verify_temp_file_is_ok (some s) = false ∧
    verify_temp_file_is_ok (some 8193) = true ∧
    verify_temp_file_is_ok (none : Option Nat) = false := by
  refine ⟨?_, by decide, rfl⟩
  simp [verify_temp_file_is_ok, h]

/-- Witness for C2 at the boundary size 8192 itself. -/
theorem C2_verify_boundary_witness :
    verify_temp_file_is_ok (some 8192) = false ∧
    verify_temp_file_is_ok (some 8193) = true ∧
    verify_temp_file_is_ok (none : Option Nat) = false :=
  C2_verify_boundary 8192 (by decide)

/-- C3: `start_download` admits exactly one run.  From the idle state it
returns `true`, flips `is_downloading`, zeroes the batch counter and
records the start time (all other fields unchanged); from the running
state it returns `false` and leaves the state untouched. -/
theorem C3_single_flight_admission (m : DownloadManager) (now : Nat) :
    (m.is_downloading = false →
      start_download m now =
        (true, { m with is_downloading := true, batch_number := 0, start_time := some now })) ∧
    (m.is_downloading = true →
      start_download m now = (false, m)) := by
  constructor <;> intro h <;> simp [start_download, h]

/-- Witness for C3: one concrete idle manager is admitted with the
promised state, one concrete running manager is refused unchanged. -/
theorem C3_single_flight_admission_witness :
    start_download { batch_number := 7 } 3 =
      (true, { is_downloading := true, batch_number := 0, start_time := some 3 }) ∧
    start_download { is_downloading := true, batch_number := 2 } 3 =
      (false, { is_downloading := true, batch_number := 2 }) :=
  ⟨(C3_single_flight_admission { batch_number := 7 } 3).1 rfl,
   (C3_single_flight_admission { is_downloading := true, batch_number := 2 } 3).2 rfl⟩

/-- C4 counterexample: `finish_download` does NOT clear all batch
fields.  From a running state with batch number 2, total 3 and
completed 1, it leaves those three fields at 2, 3 and 1. -/
theorem C4_finish_counterexample :
    ({ is_downloading := true, pending_count := 2, completed_count := 1, total_count := 3,
       batch_number := 2, download_thread := true, start_time := some 5 } :
        DownloadManager).is_downloading = true ∧
    (finish_download
      { is_downloading := true, pending_count := 2, completed_count := 1, total_count := 3,
        batch_number := 2, download_thread := true, start_time := some 5 }).batch_number = 2 ∧
    (finish_download
      { is_downloading := true, pending_count := 2, completed_count := 1, total_count := 3,
        batch_number := 2, download_thread := true, start_time := some 5 }).total_count = 3 ∧
    (finish_download
      { is_downloading := true, pending_count := 2, completed_count := 1, total_count := 3,
        batch_number := 2, download_thread := true, start_time := some 5 }).completed_count = 1 ∧
    ((2 : Int) ≠ 0 ∧ (3 : Int) ≠ 0 ∧ (1 : Int) ≠ 0) := by
  refine ⟨rfl, rfl, rfl, rfl, by decide⟩

/-- C4 amended: `finish_download` called from the running state returns
the coordinator to idle and clears the pending count, the thread handle
and the start time, while leaving the batch number, the total count and
the completed count unchanged (they are reset only by the next
`start_download` / `start_batch`). -/
theorem C4_finish_clears (m : DownloadManager) (h : m.is_downloading = true) :
    finish_download m =
      { m with is_downloading := false, pending_count := 0,
               download_thread := false, start_time := none } ∧
    (finish_download m).batch_number = m.batch_number ∧
    (finish_download m).total_count = m.total_count ∧
    (finish_download m).completed_count = m.completed_count := by
  exact ⟨rfl, rfl, rfl, rfl⟩

/-- Witness for C4 amended at a concrete running state. -/
theorem C4_finish_clears_witness :
    finish_download
        { is_downloading := true, pending_count := 4, completed_count := 1, total_count := 5,
          batch_number := 3, download_thread := true, start_time := some 9 } =
      { is_downloading := false, pending_count := 0, completed_count := 1, total_count := 5,
        batch_number := 3, download_thread := false, start_time := none } :=
  (C4_finish_clears
    { is_downloading := true, pending_count := 4, completed_count := 1, total_count := 5,
      batch_number := 3, download_thread := true, start_time := some 9 } rfl).1

/-- C8: a missing or undecodable `videos.json` loads as the empty list
rather than an error, and any subsequent `save_videos` overwrites the
file (whatever its previous state) with a document that loads back as
the saved list. -/
theorem C8_corrupt_store_degrades :
    load_videos PersistedFile.absent = [] ∧
    load_videos PersistedFile.invalidJson = [] ∧
    (∀ (vs : List Video) (fs : PersistedFile),
      save_videos vs fs = PersistedFile.json (some vs) ∧
      load_videos (save_videos vs fs) = vs) :=
  ⟨rfl, rfl, fun _ _ => ⟨rfl, rfl⟩⟩

theorem update_progress_iter (k : Nat) (m : DownloadManager) :
    (update_progress^[k] m).completed_count = m.completed_count + (k : Int) ∧
    (update_progress^[k] m).pending_count = m.pending_count - (k : Int) ∧
    (update_progress^[k] m).total_count = m.total_count := by
  induction k with
  | zero => simp
  | succ n ih =>
    rw [Function.iterate_succ_apply']
    refine ⟨?_, ?_, ?_⟩ <;> simp [update_progress, ih.1, ih.2.1, ih.2.2] <;> ring

/-- C10: after `start_batch N` and `k ≤ N` calls of `update_progress`
the manager satisfies `completed + pending = total = N` and
`completed = k`; a single `update_progress` always increases
`completed_count` by one (so it never decreases) and preserves
`completed + pending = total`. -/
theorem C10_counter_invariant (m : DownloadManager) (N k : Nat) (h : k ≤ N) :
    (update_progress^[k] (start_batch m N)).completed_count +
        (update_progress^[k] (start_batch m N)).pending_count =
      (update_progress^[k] (start_batch m N)).total_count ∧
    (update_progress^[k] (start_batch m N)).total_count = (N : Int) ∧
    (update_progress^[k] (start_batch m N)).completed_count = (k : Int) ∧
    (start_batch m N).completed_count ≤ (update_progress^[k] (start_batch m N)).completed_count ∧
    (∀ m' : DownloadManager,
      (update_progress m').completed_count = m'.completed_count + 1) ∧
    (∀ m' : DownloadManager,
      m'.completed_count + m'.pending_count = m'.total_count →
      (update_progress m').completed_count + (update_progress m').pending_count =
        (update_progress m').total_count) := by
  obtain ⟨h1, h2, h3⟩ := update_progress_iter k (start_batch m N)
  refine ⟨?_, ?_, ?_, ?_, fun m' => rfl, ?_⟩
  · rw [h1, h2, h3]; simp [start_batch]
  · rw [h3]; rfl
  · rw [h1]; simp [start_batch]
  · rw [h1]; simp
  · intro m' hm'
    simp [update_progress]
    omega

/-- Witness for C10: batch of 3 with 2 progress updates. -/
theorem C10_counter_invariant_witness :
    (update_progress^[2] (start_batch {} 3)).completed_count = (2 : Int) ∧
    (update_progress^[2] (start_batch {} 3)).pending_count = (1 : Int) ∧
    (update_progress^[2] (start_batch {} 3)).total_count = (3 : Int) :=
  ⟨(C10_counter_invariant {} 3 2 (by decide)).2.2.1, by decide, by decide⟩

theorem requests_attempt_later (o : Nat → Resp) (cnt : Nat) (url : String) (attempt : Nat)
    (h : attempt ≠ 1) :
    (requests_attempt o cnt url attempt).2.2 = [url] ∧
    (requests_attempt o cnt url attempt).2.1 = cnt + 1 := by
  have hne : (attempt == 1) = false := by simp [h]
  by_cases hr : raise_for_status (o cnt) = true <;>
    simp [requests_attempt, hne, hr]

theorem requests_loop_later_attempts (o : Nat → Resp) (url : String) :
    ∀ (remaining attempt cnt : Nat), 2 ≤ attempt →
      ∀ u ∈ (requests_loop o url attempt cnt remaining).2, u = url := by
  intro remaining
  induction remaining with
  | zero => intro attempt cnt _ u hu; simp [requests_loop] at hu
  | succ n ih =>
    intro attempt cnt h2 u hu
    have ha := requests_attempt_later o cnt url attempt (by omega)
    simp only [requests_loop] at hu
    split at hu
    · split at hu
      · rw [ha.1] at hu
        simpa using hu
      · simp only [ha.1, ha.2] at hu
        rcases List.mem_append.1 hu with h1 | h1
        · simpa using h1
        · exact ih (attempt + 1) (cnt + 1) (by omega) u h1
    · simp only [ha.1, ha.2] at hu
      rcases List.mem_append.1 hu with h1 | h1
      · simpa using h1
      · exact ih (attempt + 1) (cnt + 1) (by omega) u h1

/-- C6 (amended): on the first attempt of `download_with_requests`, if
the GET returns 403 and the URL ends in `/0.mp4`, the very next GET is
issued to `url.replace('/0.mp4', '.mp4')` — every occurrence of
`/0.mp4` replaced, which strips the trailing suffix when `/0.mp4`
occurs only there — still within attempt 1; in every other situation
(later attempts, or a URL not ending in `/0.mp4`, or a non-403 first
response) every GET of the loop goes to the original URL. -/
theorem C6_alt_url_first_attempt_only (o : Nat → Resp) (url : String) (maxr : Nat)
    (hm : 0 < maxr) :
    ((o 0).status = 403 → endswith_0mp4 url = true →
      ∃ rest, (download_with_requests o url maxr).2 = url :: alt_url_of url :: rest ∧
        ∀ u ∈ rest, u = url) ∧
    (¬((o 0).status = 403 ∧ endswith_0mp4 url = true) →
      ∀ u ∈ (download_with_requests o url maxr).2, u = url) := by
  obtain ⟨k, rfl⟩ : ∃ k, maxr = k + 1 := ⟨maxr - 1, by omega⟩
  constructor
  · intro h403 hends
    have hc : ((o 0).status == 403 && (1 : Nat) == 1 && endswith_0mp4 url) = true := by
      simp [h403, hends]
    simp only [download_with_requests, requests_loop, requests_attempt, hc, if_true]
    by_cases hr : raise_for_status (o (0 + 1)) = true
    · simp only [hr, if_true]
      exact ⟨_, rfl, fun u hu => requests_loop_later_attempts o url k (1 + 1) (0 + 2)
        (by omega) u hu⟩
    · simp only [hr, if_false, Bool.false_eq_true]
      by_cases hv : verify_temp_file_is_ok (some (o (0 + 1)).size) = true
      · simp only [hv, if_true]
        exact ⟨[], rfl, by simp⟩
      · simp only [hv, if_false, Bool.false_eq_true]
        exact ⟨_, rfl, fun u hu => requests_loop_later_attempts o url k (1 + 1) (0 + 2)
          (by omega) u hu⟩
  · intro hno u hu
    have hc : ((o 0).status == 403 && (1 : Nat) == 1 && endswith_0mp4 url) = false := by
      rcases Decidable.not_and_iff_or_not.1 hno with h | h
      · simp [h]
      · simp [Bool.eq_false_iff.2 h]
    simp only [download_with_requests, requests_loop, requests_attempt, hc,
      if_false, Bool.false_eq_true] at hu
    by_cases hr : raise_for_status (o 0) = true
    · simp only [hr, if_true] at hu
      rcases List.mem_append.1 hu with h1 | h1
      · simpa using h1
      · exact requests_loop_later_attempts o url k (1 + 1) (0 + 1) (by omega) u h1
    · simp only [hr, if_false, Bool.false_eq_true] at hu
      by_cases hv : verify_temp_file_is_ok (some (o 0).size) = true
      · simp only [hv, if_true] at hu
        simpa using hu
      · simp only [hv, if_false, Bool.false_eq_true] at hu
        rcases List.mem_append.1 hu with h1 | h1
        · simpa using h1
        · exact requests_loop_later_attempts o url k (1 + 1) (0 + 1) (by omega) u h1

/-- C6 counterexample to the claim as stated: for the URL
`http://h/0.mp4/0.mp4` (which ends in `/0.mp4`) with a constant 403
origin, the retry the code issues goes to `http://h.mp4.mp4` — every
occurrence of `/0.mp4` replaced — and not to `http://h/0.mp4.mp4`, the
URL with only the trailing suffix stripped that the claim names. -/
theorem C6_trailing_strip_counterexample :
    endswith_0mp4 "http://h/0.mp4/0.mp4" = true ∧
    (download_with_requests (fun _ => { status := 403, size := 0 }) "http://h/0.mp4/0.mp4" 2).2 =
      ["http://h/0.mp4/0.mp4", "http://h.mp4.mp4", "http://h/0.mp4/0.mp4"] ∧
    spec_alt_url "http://h/0.mp4/0.mp4" = "http://h/0.mp4.mp4" ∧
    ("http://h.mp4.mp4" : String) ≠ "http://h/0.mp4.mp4" := by
  refine ⟨by decide, by decide, by decide, by decide⟩

/-- Witness for C6: a first-attempt 403 on `http://a/0.mp4` makes the
second GET go to `http://a.mp4` (and here the download then succeeds),
while a first-attempt 403 on `http://a.mp4` (no `/0.mp4` suffix) keeps
every GET on the original URL. -/
theorem C6_alt_url_first_attempt_only_witness :
    (∃ rest,
      (download_with_requests
          (fun n => if n == 0 then { status := 403, size := 0 } else { status := 200, size := 9000 })
          "http://a/0.mp4" 2).2 =
        "http://a/0.mp4" :: alt_url_of "http://a/0.mp4" :: rest ∧
      ∀ u ∈ rest, u = "http://a/0.mp4") ∧
    (∀ u ∈ (download_with_requests (fun _ => { status := 403, size := 0 }) "http://a.mp4" 2).2,
      u = "http://a.mp4") :=
  ⟨(C6_alt_url_first_attempt_only
      (fun n => if n == 0 then { status := 403, size := 0 } else { status := 200, size := 9000 })
      "http://a/0.mp4" 2 (by decide)).1 rfl (by decide),
   (C6_alt_url_first_attempt_only (fun _ => { status := 403, size := 0 })
      "http://a.mp4" 2 (by decide)).2 (by decide)⟩

theorem mark_length (vs : List Video) (n : String) :
    (mark_as_downloaded vs n).1.length = vs.length := by
  induction vs with
  | nil => rfl
  | cons v vs ih =>
    by_cases hv : v.videoName == some n <;> simp [mark_as_downloaded, hv, ih]

theorem mark_names (vs : List Video) (n : String) :
    definedNames (mark_as_downloaded vs n).1 = definedNames vs := by
  induction vs with
  | nil => rfl
  | cons v vs ih =>
    by_cases hv : v.videoName == some n <;>
      simp [mark_as_downloaded, hv, definedNames, List.filterMap_cons] <;>
      cases h : v.videoName <;>
      simp [definedNames] at ih <;> simp [ih]

theorem mark_found (vs : List Video) (n : String) (h : hasName vs n = true) :
    (mark_as_downloaded vs n).2 = true := by
  induction vs with
  | nil => simp [hasName] at h
  | cons v vs ih =>
    by_cases hv : v.videoName == some n
    · simp [mark_as_downloaded, hv]
    · simp [hasName, hv] at h
      simp [mark_as_downloaded, hv, ih (by simpa [hasName] using h)]

theorem nodup_definedNames_tail {v : Video} {vs : List Video}
    (h : (definedNames (v :: vs)).Nodup) : (definedNames vs).Nodup := by
  cases hn : v.videoName with
  | none => simpa [definedNames, List.filterMap_cons, hn] using h
  | some m =>
    rw [definedNames, List.filterMap_cons, hn] at h
    exact h.of_cons

theorem mark_count (vs : List Video) (n : String)
    (hnd : (definedNames vs).Nodup)
    (h : ∃ v ∈ vs, v.videoName = some n ∧ v.downloaded = false) :
    downloadedCount (mark_as_downloaded vs n).1 = downloadedCount vs + 1 := by
  induction vs with
  | nil => simp at h
  | cons v vs ih =>
    by_cases hv : v.videoName == some n
    · have hvn : v.videoName = some n := by simpa using hv
      have hvd : v.downloaded = false := by
        rcases h with ⟨w, hw, hwn, hwd⟩
        rcases List.mem_cons.1 hw with rfl | hw
        · exact hwd
        · exfalso
          have hmem : n ∈ definedNames vs :=
            List.mem_filterMap.2 ⟨w, hw, hwn⟩
          rw [definedNames, List.filterMap_cons, hvn] at hnd
          exact (List.nodup_cons.1 hnd).1 hmem
      simp [mark_as_downloaded, hv, downloadedCount, List.filter_cons, hvd]
    · have hvn : v.videoName ≠ some n := by simpa using hv
      rcases h with ⟨w, hw, hwn, hwd⟩
      rcases List.mem_cons.1 hw with rfl | hw
      · exact absurd hwn hvn
      · have := ih (nodup_definedNames_tail hnd) ⟨w, hw, hwn, hwd⟩
        by_cases hd : v.downloaded <;>
          simp [mark_as_downloaded, hv, downloadedCount, List.filter_cons, hd] at this ⊢ <;>
          omega

theorem mark_keeps_others (vs : List Video) (n : String) :
    ∀ w ∈ vs, w.videoName ≠ some n → w ∈ (mark_as_downloaded vs n).1 := by
  induction vs with
  | nil => simp
  | cons v vs ih =>
    intro w hw hwn
    by_cases hv : v.videoName == some n
    · rcases List.mem_cons.1 hw with rfl | hw
      · exact absurd (by simpa using hv) hwn
      · simp [mark_as_downloaded, hv]
        exact Or.inr hw
    · rcases List.mem_cons.1 hw with rfl | hw
      · simp [mark_as_downloaded, hv]
      · simp [mark_as_downloaded, hv]
        exact Or.inr (ih w hw hwn)

theorem run_jobs_evs_progress (o : Nat → Bool) :
    ∀ (P : List Video) (cnt : Nat) (mgr : DownloadManager) (store : List Video),
      ∀ e ∈ (run_jobs o P cnt mgr store).evs, e = Ev.progress := by
  intro P
  induction P with
  | nil => intro cnt mgr store e he; simp [run_jobs] at he
  | cons job rest ih =>
    intro cnt mgr store e he
    rcases hurl : job.videoUrl with _ | u <;> rcases hname : job.videoName with _ | name <;>
      simp only [run_jobs, hurl, hname] at he
    · simp at he
    · simp at he
    · simp at he
    · by_cases ho : o cnt = true
      · rw [if_pos ho] at he
        by_cases hm : (mark_as_downloaded store name).2 = true
        · rw [if_pos hm] at he
          rcases List.mem_cons.1 he with rfl | he
          · rfl
          · exact ih (cnt + 1) (update_progress mgr) (mark_as_downloaded store name).1 e he
        · rw [if_neg hm] at he
          exact ih (cnt + 1) mgr store e he
      · rw [if_neg ho] at he
        exact ih (cnt + 1) mgr store e he

theorem run_jobs_spec (o : Nat → Bool) :
    ∀ (P : List Video) (cnt : Nat) (mgr : DownloadManager) (store : List Video) (r : JobsOut),
      r = run_jobs o P cnt mgr store →
      (definedNames store).Nodup →
      (definedNames P).Nodup →
      (∀ p ∈ P, ∀ n, p.videoName = some n →
        ∃ v ∈ store, v.videoName = some n ∧ v.downloaded = false) →
      r.store.length = store.length ∧
      definedNames r.store = definedNames store ∧
      downloadedCount r.store = downloadedCount store + r.batch_success ∧
      r.mgr.completed_count = mgr.completed_count + (r.batch_success : Int) ∧
      r.mgr.pending_count = mgr.pending_count - (r.batch_success : Int) ∧
      r.mgr.total_count = mgr.total_count ∧
      r.mgr.batch_number = mgr.batch_number ∧
      r.mgr.is_downloading = mgr.is_downloading ∧
      (r.exc = false → r.batch_success + r.batch_fail = P.length) ∧
      r.evs = List.replicate r.batch_success Ev.progress := by
  intro P
  induction P with
  | nil =>
    intro cnt mgr store r hr hnd hP hmem
    subst hr
    simp [run_jobs]
  | cons job rest ih =>
    intro cnt mgr store r hr hnd hP hmem
    subst hr
    rcases hurl : job.videoUrl with _ | u <;> rcases hname : job.videoName with _ | name <;>
      simp only [run_jobs, hurl, hname]
    · simp
    · simp
    · simp
    · -- both url and name present
      have hjob : ∃ v ∈ store, v.videoName = some name ∧ v.downloaded = false :=
        hmem job (List.mem_cons_self job rest) name hname
      have hPn : name :: definedNames rest = definedNames (job :: rest) := by
        simp [definedNames, List.filterMap_cons, hname]
      have hPrest : (definedNames rest).Nodup := by
        rw [← hPn] at hP; exact hP.of_cons
      have hnotin : name ∉ definedNames rest := by
        rw [← hPn] at hP; exact (List.nodup_cons.1 hP).1
      by_cases ho : o cnt = true
      · rw [if_pos ho]
        have hfound : (mark_as_downloaded store name).2 = true := by
          apply mark_found
          rcases hjob with ⟨v, hv, hvn, _⟩
          exact List.any_eq_true.2 ⟨v, hv, by simp [hvn]⟩
        rw [if_pos hfound]
        have hmark_nd : (definedNames (mark_as_downloaded store name).1).Nodup := by
          rw [mark_names]; exact hnd
        have hmem2 : ∀ p ∈ rest, ∀ n, p.videoName = some n →
            ∃ v ∈ (mark_as_downloaded store name).1, v.videoName = some n ∧ v.downloaded = false := by
          intro p hp n hpn
          have hnn : n ≠ name := by
            intro h
            subst h
            exact hnotin (List.mem_filterMap.2 ⟨p, hp, hpn⟩)
          rcases hmem p (List.mem_cons_of_mem job hp) n hpn with ⟨v, hv, hvn, hvd⟩
          exact ⟨v, mark_keeps_others store name v hv (by simp [hvn, hnn]), hvn, hvd⟩
        obtain ⟨ih1, ih2, ih3, ih4, ih5, ih6, ih7, ih8, ih9, ih10⟩ :=
          ih (cnt + 1) (update_progress mgr) (mark_as_downloaded store name).1
            (run_jobs o rest (cnt + 1) (update_progress mgr) (mark_as_downloaded store name).1)
            rfl hmark_nd hPrest hmem2
        dsimp only
        refine ⟨?_, ?_, ?_, ?_, ?_, ?_, ?_, ?_, ?_, ?_⟩
        · simpa [mark_length] using ih1
        · simpa [mark_names] using ih2
        · rw [ih3, mark_count store name hnd hjob]
          omega
        · rw [ih4]; simp [update_progress]; ring
        · rw [ih5]; simp [update_progress]; ring
        · rw [ih6]; rfl
        · rw [ih7]; rfl
        · rw [ih8]; rfl
        · intro hexc
          have := ih9 hexc
          simp only [List.length_cons]
          omega
        · rw [ih10]
          simp [List.replicate_succ]
      · rw [if_neg ho]
        have hmem2 : ∀ p ∈ rest, ∀ n, p.videoName = some n →
            ∃ v ∈ store, v.videoName = some n ∧ v.downloaded = false :=
          fun p hp n hpn => hmem p (List.mem_cons_of_mem job hp) n hpn
        obtain ⟨ih1, ih2, ih3, ih4, ih5, ih6, ih7, ih8, ih9, ih10⟩ :=
          ih (cnt + 1) mgr store (run_jobs o rest (cnt + 1) mgr store) rfl hnd hPrest hmem2
        refine ⟨ih1, ih2, ih3, ih4, ih5, ih6, ih7, ih8, ?_, ih10⟩
        intro hexc
        have := ih9 hexc
        simp only [List.length_cons]
        omega

theorem pending_add_downloaded (vs : List Video) :
    (pendingOf vs).length + downloadedCount vs = vs.length := by
  induction vs with
  | nil => rfl
  | cons v vs ih =>
    by_cases hd : v.downloaded <;>
      simp [pendingOf, downloadedCount, List.filter_cons, hd] at ih ⊢ <;> omega

theorem pendingOf_nodup (store : List Video) (hnd : (definedNames store).Nodup) :
    (definedNames (pendingOf store)).Nodup := by
  unfold definedNames pendingOf
  unfold definedNames at hnd
  exact hnd.sublist ((List.filter_sublist store).filterMap (fun v => v.videoName))

theorem pendingOf_invariant (store : List Video) :
    ∀ p ∈ pendingOf store, ∀ n, p.videoName = some n →
      ∃ v ∈ store, v.videoName = some n ∧ v.downloaded = false := by
  intro p hp n hn
  have := List.mem_filter.1 hp
  exact ⟨p, this.1, hn, by simpa using this.2⟩

theorem run_jobs_count_finish (o : Nat → Bool) (P : List Video) (cnt : Nat)
    (mgr : DownloadManager) (store : List Video) :
    (run_jobs o P cnt mgr store).evs.count Ev.finish = 0 := by
  refine List.count_eq_zero.2 (fun h => ?_)
  have := run_jobs_evs_progress o P cnt mgr store Ev.finish h
  simp at this

theorem run_jobs_countScan (o : Nat → Bool) (P : List Video) (cnt : Nat)
    (mgr : DownloadManager) (store : List Video) :
    countScan (run_jobs o P cnt mgr store).evs = 0 := by
  rw [countScan, List.length_eq_zero]
  refine List.filter_eq_nil.2 (fun e he => ?_)
  rw [run_jobs_evs_progress o P cnt mgr store e he]
  simp [isScanEv]

theorem run_loop_spec (o : Nat → Bool) :
    ∀ (fuel cnt : Nat) (mgr : DownloadManager) (store : List Video),
      (definedNames store).Nodup →
      (pendingOf store).length < fuel →
      (run_loop o fuel cnt mgr store).fuelOut = false ∧
      (run_loop o fuel cnt mgr store).evs.count Ev.finish = 0 := by
  intro fuel
  induction fuel with
  | zero => intro cnt mgr store hnd hf; omega
  | succ f ih =>
    intro cnt mgr store hnd hf
    by_cases hemp : (pendingOf store).isEmpty
    · simp [run_loop, hemp, List.count_cons]
    · obtain ⟨s1, s2, s3, s4, s5, s6, s7, s8, s9, s10⟩ :=
        run_jobs_spec o (pendingOf store) cnt (start_batch mgr (pendingOf store).length) store
          (run_jobs o (pendingOf store) cnt (start_batch mgr (pendingOf store).length) store)
          rfl hnd (pendingOf_nodup store hnd) (pendingOf_invariant store)
      by_cases hexc :
        (run_jobs o (pendingOf store) cnt (start_batch mgr (pendingOf store).length) store).exc = true
      · simp only [run_loop, hemp, if_false, Bool.false_eq_true, hexc, if_true]
        refine ⟨by trivial, ?_⟩
        simp [List.count_cons, run_jobs_count_finish]
      · by_cases habort :
          ((run_jobs o (pendingOf store) cnt (start_batch mgr (pendingOf store).length) store).batch_success == 0 &&
            decide (0 < (run_jobs o (pendingOf store) cnt (start_batch mgr (pendingOf store).length) store).batch_fail)) = true
        · simp only [run_loop, hemp, if_false, Bool.false_eq_true, hexc, habort, if_true]
          refine ⟨by trivial, ?_⟩
          simp [List.count_cons, run_jobs_count_finish]
        · simp only [run_loop, hemp, if_false, Bool.false_eq_true, hexc, habort]
          have hlen :
              (pendingOf (run_jobs o (pendingOf store) cnt
                (start_batch mgr (pendingOf store).length) store).store).length <
              (pendingOf store).length := by
            have h1 := pending_add_downloaded
              (run_jobs o (pendingOf store) cnt (start_batch mgr (pendingOf store).length) store).store
            have h2 := pending_add_downloaded store
            have hne : (pendingOf store).length ≠ 0 := by
              intro h
              exact hemp (List.isEmpty_iff_length_eq_zero.2 h)
            have hsum := s9 (by simpa using hexc)
            have hbs : 0 <
                (run_jobs o (pendingOf store) cnt
                  (start_batch mgr (pendingOf store).length) store).batch_success := by
              rcases Nat.eq_zero_or_pos
                (run_jobs o (pendingOf store) cnt
                  (start_batch mgr (pendingOf store).length) store).batch_success with h0 | h0
              · exfalso
                apply habort
                simp [h0]
                omega
              · exact h0
            omega
          have hnd2 : (definedNames (run_jobs o (pendingOf store) cnt
              (start_batch mgr (pendingOf store).length) store).store).Nodup := by
            rw [s2]; exact hnd
          obtain ⟨ihf, ihc⟩ := ih
            (run_jobs o (pendingOf store) cnt (start_batch mgr (pendingOf store).length) store).cnt
            (run_jobs o (pendingOf store) cnt (start_batch mgr (pendingOf store).length) store).mgr
            (run_jobs o (pendingOf store) cnt (start_batch mgr (pendingOf store).length) store).store
            hnd2 (by omega)
          refine ⟨ihf, ?_⟩
          simp [List.count_cons, List.count_append, run_jobs_count_finish, ihc]

/-- C5: whenever the background runner is admitted (the coordinator was
idle) and is given enough fuel for its loop to reach one of its real
exits (the supplied fuel bound suffices for any store with no duplicate
ids), the run performs `finish_download` exactly once — whether the loop
ended on an empty pending queue, on the whole-batch-failure abort, or on
an escaped exception — and the coordinator ends not downloading. -/
theorem C5_finish_called_exactly_once (o : Nat → Bool) (fuel : Nat) (mgr : DownloadManager)
    (store : List Video) (now : Nat)
    (hidle : mgr.is_downloading = false)
    (hnd : (definedNames store).Nodup)
    (hfuel : (pendingOf store).length < fuel) :
    (download_pending_videos_background o fuel mgr store now).admitted = true ∧
    (download_pending_videos_background o fuel mgr store now).fuelOut = false ∧
    (download_pending_videos_background o fuel mgr store now).evs.count Ev.finish = 1 ∧
    (download_pending_videos_background o fuel mgr store now).mgr.is_downloading = false := by
  obtain ⟨hfo, hcount⟩ := run_loop_spec o fuel 0
    { mgr with is_downloading := true, batch_number := 0, start_time := some now } store hnd hfuel
  simp only [download_pending_videos_background, start_download, hidle, Bool.false_eq_true,
    if_false]
  exact ⟨rfl, hfo, by simp [List.count_append, hcount], rfl⟩

/-- Witness for C5: one job that downloads successfully; the trace holds
exactly one `finish` event and the manager ends idle. -/
theorem C5_finish_called_exactly_once_witness :
    (download_pending_videos_background (fun _ => true) 2 {}
        [{ videoName := some "a", videoUrl := some "u", downloaded := false }] 0).admitted = true ∧
    (download_pending_videos_background (fun _ => true) 2 {}
        [{ videoName := some "a", videoUrl := some "u", downloaded := false }] 0).fuelOut = false ∧
    (download_pending_videos_background (fun _ => true) 2 {}
        [{ videoName := some "a", videoUrl := some "u", downloaded := false }] 0).evs.count
      Ev.finish = 1 ∧
    (download_pending_videos_background (fun _ => true) 2 {}
        [{ videoName := some "a", videoUrl := some "u", downloaded := false }] 0).mgr.is_downloading =
      false :=
  C5_finish_called_exactly_once (fun _ => true) 2 {}
    [{ videoName := some "a", videoUrl := some "u", downloaded := false }] 0
    (by decide) (by decide) (by decide)

/-- C9: a cycle over the `N` pending records of a duplicate-free store
that completes without an escaped exception leaves the coordinator with
`completed_count` equal to the number `S` of successful downloads and
`pending_count` equal to `N - S`, processes every pending job
(`S` successes plus the failures make up `N`), and leaves the store with
exactly `S` additional `downloaded = true` records. -/
theorem C9_progress_accounting (o : Nat → Bool) (cnt : Nat) (mgr : DownloadManager)
    (store : List Video)
    (hnd : (definedNames store).Nodup)
    (hexc : (run_jobs o (pendingOf store) cnt (start_batch mgr (pendingOf store).length)
      store).exc = false) :
    (run_jobs o (pendingOf store) cnt (start_batch mgr (pendingOf store).length)
        store).mgr.completed_count =
      ((run_jobs o (pendingOf store) cnt (start_batch mgr (pendingOf store).length)
        store).batch_success : Int) ∧
    (run_jobs o (pendingOf store) cnt (start_batch mgr (pendingOf store).length)
        store).mgr.pending_count =
      ((pendingOf store).length : Int) -
        ((run_jobs o (pendingOf store) cnt (start_batch mgr (pendingOf store).length)
          store).batch_success : Int) ∧
    (run_jobs o (pendingOf store) cnt (start_batch mgr (pendingOf store).length)
          store).batch_success +
        (run_jobs o (pendingOf store) cnt (start_batch mgr (pendingOf store).length)
          store).batch_fail =
      (pendingOf store).length ∧
    downloadedCount (run_jobs o (pendingOf store) cnt
        (start_batch mgr (pendingOf store).length) store).store =
      downloadedCount store +
        (run_jobs o (pendingOf store) cnt (start_batch mgr (pendingOf store).length)
          store).batch_success := by
  obtain ⟨s1, s2, s3, s4, s5, s6, s7, s8, s9, s10⟩ :=
    run_jobs_spec o (pendingOf store) cnt (start_batch mgr (pendingOf store).length) store
      (run_jobs o (pendingOf store) cnt (start_batch mgr (pendingOf store).length) store)
      rfl hnd (pendingOf_nodup store hnd) (pendingOf_invariant store)
  refine ⟨?_, ?_, s9 hexc, s3⟩
  · rw [s4]; simp [start_batch]
  · rw [s5]; simp [start_batch]

/-- Witness for C9: three records (one already downloaded), one download
succeeds and one fails: completed 1, pending 1, two committed records. -/
theorem C9_progress_accounting_witness :
    (run_jobs (fun n => n == 0)
        (pendingOf [{ videoName := some "a", videoUrl := some "u", downloaded := false },
          { videoName := some "b", videoUrl := some "v", downloaded := false },
          { videoName := some "c", videoUrl := some "w", downloaded := true }]) 0
        (start_batch {}
          (pendingOf [{ videoName := some "a", videoUrl := some "u", downloaded := false },
            { videoName := some "b", videoUrl := some "v", downloaded := false },
            { videoName := some "c", videoUrl := some "w", downloaded := true }]).length)
        [{ videoName := some "a", videoUrl := some "u", downloaded := false },
          { videoName := some "b", videoUrl := some "v", downloaded := false },
          { videoName := some "c", videoUrl := some "w", downloaded := true }]).mgr.completed_count =
      ((run_jobs (fun n => n == 0)
        (pendingOf [{ videoName := some "a", videoUrl := some "u", downloaded := false },
          { videoName := some "b", videoUrl := some "v", downloaded := false },
          { videoName := some "c", videoUrl := some "w", downloaded := true }]) 0
        (start_batch {}
          (pendingOf [{ videoName := some "a", videoUrl := some "u", downloaded := false },
            { videoName := some "b", videoUrl := some "v", downloaded := false },
            { videoName := some "c", videoUrl := some "w", downloaded := true }]).length)
        [{ videoName := some "a", videoUrl := some "u", downloaded := false },
          { videoName := some "b", videoUrl := some "v", downloaded := false },
          { videoName := some "c", videoUrl := some "w", downloaded := true }]).batch_success :
        Int) :=
  (C9_progress_accounting (fun n => n == 0) 0 {}
    [{ videoName := some "a", videoUrl := some "u", downloaded := false },
      { videoName := some "b", videoUrl := some "v", downloaded := false },
      { videoName := some "c", videoUrl := some "w", downloaded := true }]
    (by decide) (by decide)).1

theorem countScan_cons_scan (n : Nat) (l : List Ev) :
    countScan (Ev.scan n :: l) = countScan l + 1 := by
  simp [countScan, List.filter_cons, isScanEv]

theorem countScan_cons_startBatch (n : Nat) (l : List Ev) :
    countScan (Ev.startBatch n :: l) = countScan l := by
  simp [countScan, List.filter_cons, isScanEv]

theorem run_loop_scan_pos (o : Nat → Bool) (fuel cnt : Nat) (mgr : DownloadManager)
    (store : List Video) (h : 0 < fuel) :
    1 ≤ countScan (run_loop o fuel cnt mgr store).evs := by
  obtain ⟨f, rfl⟩ : ∃ f, fuel = f + 1 := ⟨fuel - 1, by omega⟩
  by_cases hemp : (pendingOf store).isEmpty
  · simp [run_loop, hemp, countScan, isScanEv]
  · by_cases hexc :
      (run_jobs o (pendingOf store) cnt (start_batch mgr (pendingOf store).length) store).exc = true
    · simp only [run_loop, hemp, if_false, Bool.false_eq_true, hexc, if_true]
      rw [countScan_cons_scan]
      omega
    · by_cases habort :
        ((run_jobs o (pendingOf store) cnt (start_batch mgr (pendingOf store).length)
            store).batch_success == 0 &&
          decide (0 < (run_jobs o (pendingOf store) cnt
            (start_batch mgr (pendingOf store).length) store).batch_fail)) = true
      · simp only [run_loop, hemp, if_false, Bool.false_eq_true, hexc, habort, if_true]
        rw [countScan_cons_scan]
        omega
      · simp only [run_loop, hemp, if_false, Bool.false_eq_true, hexc, habort]
        rw [countScan_cons_scan]
        omega

/-- C7: a completed cycle (no escaped exception) over a nonempty pending
queue of a duplicate-free store controls whether the loop re-scans: with
zero successes and at least one failure the whole run performs exactly
the one store scan it started with (no re-scan, the run aborts); with at
least one success, or with no failures, the loop goes back and scans the
store at least once more. -/
theorem C7_whole_batch_failure_aborts (o : Nat → Bool) (fuel cnt : Nat)
    (mgr : DownloadManager) (store : List Video)
    (hnd : (definedNames store).Nodup)
    (hne : (pendingOf store).isEmpty = false)
    (hfuel : (pendingOf store).length < fuel)
    (hexc : (run_jobs o (pendingOf store) cnt (start_batch mgr (pendingOf store).length)
      store).exc = false) :
    (((run_jobs o (pendingOf store) cnt (start_batch mgr (pendingOf store).length)
          store).batch_success = 0 ∧
      0 < (run_jobs o (pendingOf store) cnt (start_batch mgr (pendingOf store).length)
          store).batch_fail) →
      countScan (run_loop o fuel cnt mgr store).evs = 1) ∧
    ((0 < (run_jobs o (pendingOf store) cnt (start_batch mgr (pendingOf store).length)
          store).batch_success ∨
      (run_jobs o (pendingOf store) cnt (start_batch mgr (pendingOf store).length)
          store).batch_fail = 0) →
      2 ≤ countScan (run_loop o fuel cnt mgr store).evs) := by
  have hlen : 0 < (pendingOf store).length := by
    rcases Nat.eq_zero_or_pos (pendingOf store).length with h0 | h0
    · exact absurd (List.isEmpty_iff_length_eq_zero.2 h0) (by simp [hne])
    · exact h0
  obtain ⟨f, rfl⟩ : ∃ f, fuel = f + 1 := ⟨fuel - 1, by omega⟩
  have hexc2 :
      ((run_jobs o (pendingOf store) cnt (start_batch mgr (pendingOf store).length)
        store).exc = true) = False := by
    simp [hexc]
  constructor
  · intro ⟨habs, habf⟩
    have habort :
        ((run_jobs o (pendingOf store) cnt (start_batch mgr (pendingOf store).length)
            store).batch_success == 0 &&
          decide (0 < (run_jobs o (pendingOf store) cnt
            (start_batch mgr (pendingOf store).length) store).batch_fail)) = true := by
      simp [habs, habf]
    simp only [run_loop, hne, if_false, Bool.false_eq_true, hexc2, if_true, habort]
    rw [countScan_cons_scan, countScan_cons_startBatch, run_jobs_countScan]
  · intro hgood
    have habort :
        ((run_jobs o (pendingOf store) cnt (start_batch mgr (pendingOf store).length)
            store).batch_success == 0 &&
          decide (0 < (run_jobs o (pendingOf store) cnt
            (start_batch mgr (pendingOf store).length) store).batch_fail)) = false := by
      rcases hgood with h | h
      · simp
        intro h0
        omega
      · simp [h]
    simp only [run_loop, hne, if_false, Bool.false_eq_true, hexc2, habort]
    rw [countScan_cons_scan, countScan_cons_startBatch]
    have := run_loop_scan_pos o f
      (run_jobs o (pendingOf store) cnt (start_batch mgr (pendingOf store).length) store).cnt
      (run_jobs o (pendingOf store) cnt (start_batch mgr (pendingOf store).length) store).mgr
      (run_jobs o (pendingOf store) cnt (start_batch mgr (pendingOf store).length) store).store
      (by omega)
    simp only [countScan, List.filter_append, List.length_append] at this ⊢
    omega

/-- Witness for C7: a store with one pending record.  When its download
fails the run scans once and aborts; when it succeeds the loop scans a
second time (finding nothing pending). -/
theorem C7_whole_batch_failure_aborts_witness :
    countScan (run_loop (fun _ => false) 2 0 {}
      [{ videoName := some "a", videoUrl := some "u", downloaded := false }]).evs = 1 ∧
    2 ≤ countScan (run_loop (fun _ => true) 2 0 {}
      [{ videoName := some "a", videoUrl := some "u", downloaded := false }]).evs :=
  ⟨(C7_whole_batch_failure_aborts (fun _ => false) 2 0 {}
      [{ videoName := some "a", videoUrl := some "u", downloaded := false }]
      (by decide) (by decide) (by decide) (by decide)).1 (by decide),
   (C7_whole_batch_failure_aborts (fun _ => true) 2 0 {}
      [{ videoName := some "a", videoUrl := some "u", downloaded := false }]
      (by decide) (by decide) (by decide) (by decide)).2 (by decide)⟩

theorem hasName_append (a b : List Video) (n : String) :
    hasName (a ++ b) n = (hasName a n || hasName b n) := by
  simp [hasName, List.any_append]

theorem hasName_iff (vs : List Video) (n : String) :
    hasName vs n = true ↔ n ∈ definedNames vs := by
  simp [hasName, List.any_eq_true, definedNames, List.mem_filterMap]

theorem hasName_false_all (vs : List Video) (n : String) (h : hasName vs n = false) :
    ∀ x ∈ vs, (x.videoName == some n) = false := by
  intro x hx
  by_contra hc
  rw [hasName, List.any_eq_false] at h
  exact (h x hx) (by simpa using hc)

theorem find?_append_none {α : Type} {p : α → Bool} (l₁ l₂ : List α)
    (h : ∀ x ∈ l₁, p x = false) :
    (l₁ ++ l₂).find? p = l₂.find? p := by
  induction l₁ with
  | nil => rfl
  | cons x xs ih =>
    have hx := h x (List.mem_cons_self x xs)
    simp only [List.cons_append, List.find?_cons, hx]
    exact ih (fun y hy => h y (List.mem_cons_of_mem x hy))

theorem find?_append_some {α : Type} {p : α → Bool} (l₁ l₂ : List α) (x : α)
    (h : l₁.find? p = some x) :
    (l₁ ++ l₂).find? p = some x := by
  induction l₁ with
  | nil => simp at h
  | cons y ys ih =>
    by_cases hy : p y = true
    · rw [List.find?_cons_of_pos ys hy] at h
      rw [List.cons_append, List.find?_cons_of_pos (ys ++ l₂) hy]
      exact h
    · rw [List.find?_cons_of_neg ys hy] at h
      rw [List.cons_append, List.find?_cons_of_neg (ys ++ l₂) hy]
      exact ih h

theorem find?_filter {α : Type} {p q : α → Bool} (l : List α) (x : α)
    (hf : l.find? p = some x) (hq : q x = true) :
    (l.filter q).find? p = some x := by
  induction l with
  | nil => simp at hf
  | cons y ys ih =>
    by_cases hy : p y = true
    · rw [List.find?_cons_of_pos ys hy] at hf
      injection hf with hf
      subst hf
      rw [List.filter_cons, if_pos hq, List.find?_cons_of_pos (ys.filter q) hy]
    · rw [List.find?_cons_of_neg ys hy] at hf
      rw [List.filter_cons]
      by_cases hqy : q y = true
      · rw [if_pos hqy, List.find?_cons_of_neg (ys.filter q) hy]
        exact ih hf
      · rw [if_neg (by simpa using hqy)]
        exact ih hf

theorem foldl_ingestStep_prefix (l : List InVideo) :
    ∀ acc : List Video, ∃ t, l.foldl ingestStep acc = acc ++ t := by
  induction l with
  | nil => intro acc; exact ⟨[], by simp⟩
  | cons v vs ih =>
    intro acc
    rw [List.foldl_cons]
    rcases hn : v.videoName with _ | n
    · simpa [ingestStep, hn] using ih acc
    · by_cases he : (n == "") = true
      · simpa [ingestStep, hn, he] using ih acc
      · by_cases hh : hasName acc n = true
        · simpa [ingestStep, hn, he, hh] using ih acc
        · obtain ⟨t, ht⟩ := ih (acc ++ [toRecord v])
          refine ⟨[toRecord v] ++ t, ?_⟩
          simp only [ingestStep, hn]
          rw [if_neg he, if_neg hh]
          rw [ht, List.append_assoc]

theorem unique_incoming_good (l : List InVideo) :
    ∀ acc : List Video,
      (∀ w ∈ acc, w.downloaded = false ∧ ∃ n, w.videoName = some n ∧ n ≠ "") →
      (definedNames acc).Nodup →
      (∀ w ∈ l.foldl ingestStep acc,
        w.downloaded = false ∧ ∃ n, w.videoName = some n ∧ n ≠ "") ∧
      (definedNames (l.foldl ingestStep acc)).Nodup := by
  induction l with
  | nil => intro acc h1 h2; exact ⟨h1, h2⟩
  | cons v vs ih =>
    intro acc h1 h2
    rw [List.foldl_cons]
    rcases hn : v.videoName with _ | n
    · have hstep : ingestStep acc v = acc := by simp [ingestStep, hn]
      rw [hstep]
      exact ih acc h1 h2
    · by_cases he : (n == "") = true
      · have hstep : ingestStep acc v = acc := by simp [ingestStep, hn, he]
        rw [hstep]
        exact ih acc h1 h2
      · by_cases hh : hasName acc n = true
        · have hstep : ingestStep acc v = acc := by simp [ingestStep, hn, he, hh]
          rw [hstep]
          exact ih acc h1 h2
        · have hstep : ingestStep acc v = acc ++ [toRecord v] := by
            simp only [ingestStep, hn]
            rw [if_neg (by simpa using he), if_neg (by simpa using hh)]
          rw [hstep]
          apply ih
          · intro w hw
            rcases List.mem_append.1 hw with hw | hw
            · exact h1 w hw
            · have hw2 : w = toRecord v := by simpa using hw
              subst hw2
              exact ⟨rfl, n, by simp [toRecord, hn], by simpa using he⟩
          · have hnames : definedNames (acc ++ [toRecord v]) = definedNames acc ++ [n] := by
              simp [definedNames, List.filterMap_append, toRecord, hn]
            rw [hnames, List.nodup_append]
            refine ⟨h2, List.nodup_singleton n, ?_⟩
            intro a ha hb
            have hb2 : a = n := by simpa using hb
            subst hb2
            exact (by simpa using hh : ¬hasName acc a = true) ((hasName_iff acc a).2 ha)

theorem unique_incoming_mem (l : List InVideo) :
    ∀ acc : List Video, ∀ w ∈ l.foldl ingestStep acc, w ∈ acc ∨ ∃ v ∈ l, w = toRecord v := by
  induction l with
  | nil => intro acc w hw; exact Or.inl hw
  | cons v vs ih =>
    intro acc w hw
    rw [List.foldl_cons] at hw
    have hsub : ingestStep acc v = acc ∨ ingestStep acc v = acc ++ [toRecord v] := by
      rcases hn : v.videoName with _ | n
      · exact Or.inl (by simp [ingestStep, hn])
      · by_cases he : (n == "") = true
        · exact Or.inl (by simp [ingestStep, hn, he])
        · by_cases hh : hasName acc n = true
          · exact Or.inl (by simp [ingestStep, hn, he, hh])
          · refine Or.inr ?_
            simp only [ingestStep, hn]
            rw [if_neg (by simpa using he), if_neg (by simpa using hh)]
    rcases hsub with hs | hs
    · rw [hs] at hw
      rcases ih acc w hw with h | ⟨u, hu, hwu⟩
      · exact Or.inl h
      · exact Or.inr ⟨u, List.mem_cons_of_mem v hu, hwu⟩
    · rw [hs] at hw
      rcases ih (acc ++ [toRecord v]) w hw with h | ⟨u, hu, hwu⟩
      · rcases List.mem_append.1 h with h | h
        · exact Or.inl h
        · exact Or.inr ⟨v, List.mem_cons_self v vs, by simpa using h⟩
      · exact Or.inr ⟨u, List.mem_cons_of_mem v hu, hwu⟩

theorem unique_incoming_filter_falsy (l : List InVideo) :
    ∀ acc : List Video,
      (l.filter (fun v => !falsyName v.videoName)).foldl ingestStep acc =
        l.foldl ingestStep acc := by
  induction l with
  | nil => intro acc; rfl
  | cons v vs ih =>
    intro acc
    rcases hn : v.videoName with _ | n
    · rw [List.filter_cons, if_neg (by simp [falsyName, hn]), List.foldl_cons]
      rw [ih acc]
      simp [ingestStep, hn]
    · by_cases he : (n == "") = true
      · rw [List.filter_cons, if_neg (by simp [falsyName, hn, he])]
        rw [List.foldl_cons, ih acc]
        have : ingestStep acc v = acc := by simp [ingestStep, hn, he]
        rw [this]
      · rw [List.filter_cons, if_pos (by simp [falsyName, hn]; simpa using he)]
        rw [List.foldl_cons, List.foldl_cons]
        exact ih (ingestStep acc v)

theorem unique_incoming_first (l : List InVideo) :
    ∀ (acc : List Video) (n : String) (v : InVideo), n ≠ "" → hasName acc n = false →
      l.find? (fun u => u.videoName == some n) = some v →
      (l.foldl ingestStep acc).find? (fun w => w.videoName == some n) = some (toRecord v) := by
  induction l with
  | nil => intro acc n v _ _ hf; simp at hf
  | cons u us ih =>
    intro acc n v hne hacc hf
    rw [List.foldl_cons]
    by_cases hu : (u.videoName == some n) = true
    · rw [List.find?_cons_of_pos us hu] at hf
      injection hf with hf
      subst hf
      have hun : u.videoName = some n := by simpa using hu
      have hne2 : ¬((n == "") = true) := by simpa using hne
      have hstep : ingestStep acc u = acc ++ [toRecord u] := by
        simp only [ingestStep, hun]
        rw [if_neg hne2, if_neg (by simp [hacc])]
      rw [hstep]
      obtain ⟨t, ht⟩ := foldl_ingestStep_prefix us (acc ++ [toRecord u])
      rw [ht]
      apply find?_append_some
      rw [find?_append_none acc [toRecord u] (hasName_false_all acc n hacc)]
      exact List.find?_cons_of_pos [] (by simp [toRecord, hun])
    · rw [List.find?_cons_of_neg us hu] at hf
      have hacc2 : hasName (ingestStep acc u) n = false := by
        rcases hm : u.videoName with _ | m
        · simpa [ingestStep, hm] using hacc
        · by_cases hme : (m == "") = true
          · have hstep : ingestStep acc u = acc := by simp [ingestStep, hm, hme]
            rw [hstep]; exact hacc
          · by_cases hmh : hasName acc m = true
            · have hstep : ingestStep acc u = acc := by
                simp only [ingestStep, hm]
                rw [if_neg hme, if_pos hmh]
              rw [hstep]; exact hacc
            · have hstep : ingestStep acc u = acc ++ [toRecord u] := by
                simp only [ingestStep, hm]
                rw [if_neg hme, if_neg hmh]
              rw [hstep, hasName_append, hacc]
              have : (Video.videoName (toRecord u) == some n) = false := by
                simp only [toRecord]
                simpa [hm] using hu
              simp [hasName, this]
      exact ih (ingestStep acc u) n v hne hacc2 hf

theorem save_new_videos_eq (l : List InVideo) (fs : PersistedFile) :
    (save_new_videos l fs).1 =
      ((unique_incoming l).filter (keepNew (load_videos fs))).length ∧
    load_videos (save_new_videos l fs).2 =
      load_videos fs ++ (unique_incoming l).filter (keepNew (load_videos fs)) := by
  by_cases h : ((unique_incoming l).filter (keepNew (load_videos fs))).isEmpty = true
  · have h2 : (unique_incoming l).filter (keepNew (load_videos fs)) = [] := by
      simpa [List.isEmpty_iff] using h
    simp only [save_new_videos]
    rw [if_pos h, h2]
    exact ⟨rfl, by simp⟩
  · simp only [save_new_videos]
    rw [if_neg h]
    exact ⟨rfl, by simp [save_videos, load_videos]⟩

/-- C1: `save_new_videos` is deduplicating and idempotent.  For every
incoming batch and store: the store after ingestion is the old store
plus a block `A` of new records, and the returned count is `A.length`;
every persisted new record has `downloaded = false`, a present non-empty
name, and a name not already in the store; the new block has no
duplicate names; the record persisted for a new name is built from the
FIRST incoming entry carrying that name; if every (non-falsy-named)
entry is already present nothing is written and 0 is returned; ingesting
the same batch again adds zero and leaves the file untouched; entries
with a missing name are skipped (ingesting the batch with them removed
is the same call); and a store with unique ids keeps unique ids. -/
theorem C1_ingest_idempotent_dedup (l : List InVideo) (fs : PersistedFile) :
    (∃ A, load_videos (save_new_videos l fs).2 = load_videos fs ++ A ∧
      (save_new_videos l fs).1 = A.length ∧
      (∀ w ∈ A, w.downloaded = false ∧
        ∃ n, w.videoName = some n ∧ n ≠ "" ∧ hasName (load_videos fs) n = false) ∧
      (definedNames A).Nodup) ∧
    (∀ (n : String) (v : InVideo), n ≠ "" → hasName (load_videos fs) n = false →
      l.find? (fun u => u.videoName == some n) = some v →
      (load_videos (save_new_videos l fs).2).find? (fun w => w.videoName == some n) =
        some (toRecord v)) ∧
    ((∀ v ∈ l, ∀ n, v.videoName = some n → n ≠ "" → hasName (load_videos fs) n = true) →
      save_new_videos l fs = (0, fs)) ∧
    (save_new_videos l (save_new_videos l fs).2 = (0, (save_new_videos l fs).2)) ∧
    (save_new_videos (l.filter (fun v => !falsyName v.videoName)) fs = save_new_videos l fs) ∧
    ((definedNames (load_videos fs)).Nodup →
      (definedNames (load_videos (save_new_videos l fs).2)).Nodup) := by
  obtain ⟨hc, hload⟩ := save_new_videos_eq l fs
  have hUgood := (unique_incoming_good l [] (by simp) (by simp [definedNames])).1
  have hUnodup := (unique_incoming_good l [] (by simp) (by simp [definedNames])).2
  have hAnodup : (definedNames
      ((unique_incoming l).filter (keepNew (load_videos fs)))).Nodup := by
    have hsub : ((unique_incoming l).filter (keepNew (load_videos fs))).Sublist
        (unique_incoming l) := List.filter_sublist (unique_incoming l)
    unfold definedNames at hUnodup ⊢
    exact hUnodup.sublist (hsub.filterMap (fun v => v.videoName))
  refine ⟨⟨(unique_incoming l).filter (keepNew (load_videos fs)), hload, hc, ?_, hAnodup⟩,
    ?_, ?_, ?_, ?_, ?_⟩
  · intro w hw
    obtain ⟨hwU, hwk⟩ := List.mem_filter.1 hw
    obtain ⟨hdl, n, hn, hne⟩ := hUgood w hwU
    refine ⟨hdl, n, hn, hne, ?_⟩
    rw [keepNew, hn] at hwk
    simpa using hwk
  · intro n v hne hE hf
    rw [hload]
    rw [find?_append_none (load_videos fs) _ (hasName_false_all (load_videos fs) n hE)]
    have hU := unique_incoming_first l [] n v hne (by simp [hasName]) hf
    apply find?_filter (unique_incoming l) (toRecord v) hU
    have hv : v.videoName = some n := by simpa using List.find?_some hf
    rw [keepNew]
    simp only [toRecord, hv, hE]
    rfl
  · intro hall
    have hA : (unique_incoming l).filter (keepNew (load_videos fs)) = [] := by
      refine List.filter_eq_nil_iff.2 (fun w hw => ?_)
      rcases unique_incoming_mem l [] w hw with h | ⟨v, hv, rfl⟩
      · simp at h
      · obtain ⟨_, n, hn, hne⟩ := hUgood (toRecord v) hw
        have hvn : v.videoName = some n := by simpa [toRecord] using hn
        have := hall v hv n hvn hne
        rw [keepNew, toRecord]
        simp only [hvn, this]
        simp
    simp only [save_new_videos]
    rw [hA]
    simp
  · have hA2 : (unique_incoming l).filter
        (keepNew (load_videos (save_new_videos l fs).2)) = [] := by
      refine List.filter_eq_nil_iff.2 (fun w hw => ?_)
      obtain ⟨_, n, hn, hne⟩ := hUgood w hw
      simp only [keepNew, hn]
      rw [hload, hasName_append]
      by_cases hE : hasName (load_videos fs) n = true
      · simp [hE]
      · have hEf : hasName (load_videos fs) n = false := by simpa using hE
        have hwA : w ∈ (unique_incoming l).filter (keepNew (load_videos fs)) :=
          List.mem_filter.2 ⟨hw, by rw [keepNew, hn]; simp [hEf]⟩
        have hhA : hasName ((unique_incoming l).filter (keepNew (load_videos fs))) n = true :=
          List.any_eq_true.2 ⟨w, hwA, by simp [hn]⟩
        simp [hhA]
    conv in save_new_videos l (save_new_videos l fs).2 => rw [save_new_videos]
    rw [hA2]
    simp
  · simp only [save_new_videos, unique_incoming]
    rw [unique_incoming_filter_falsy l []]
  · intro hE
    rw [hload, definedNames, List.filterMap_append, List.nodup_append]
    refine ⟨hE, hAnodup, ?_⟩
    intro a ha hb
    have hbA : a ∈ definedNames ((unique_incoming l).filter (keepNew (load_videos fs))) := hb
    obtain ⟨w, hw, hwn⟩ := List.mem_filterMap.1 hbA
    obtain ⟨hwU, hwk⟩ := List.mem_filter.1 hw
    rw [keepNew, hwn] at hwk
    have : hasName (load_videos fs) a = false := by simpa using hwk
    exact absurd ((hasName_iff (load_videos fs) a).2 ha) (by simp [this])

/-- Witness for C1: ingesting `[a(u1), missing-name, a(u3), b(u4)]` into
a store already holding `b`: the persisted record for `a` is the first
occurrence (url `u1`); ingesting only the already-present `b` writes
nothing and returns 0; the result store keeps unique names. -/
theorem C1_ingest_idempotent_dedup_witness :
    ((load_videos (save_new_videos
        [{ videoName := some "a", videoUrl := some "u1" },
         { videoName := none, videoUrl := some "u2" },
         { videoName := some "a", videoUrl := some "u3" },
         { videoName := some "b", videoUrl := some "u4" }]
        (PersistedFile.json
          (some [{ videoName := some "b", videoUrl := some "u0", downloaded := true }]))).2).find?
      (fun w => w.videoName == some "a") =
      some (toRecord { videoName := some "a", videoUrl := some "u1" })) ∧
    (save_new_videos [{ videoName := some "b", videoUrl := some "u9" }]
        (PersistedFile.json
          (some [{ videoName := some "b", videoUrl := some "u0", downloaded := true }])) =
      (0, PersistedFile.json
        (some [{ videoName := some "b", videoUrl := some "u0", downloaded := true }]))) ∧
    (definedNames (load_videos (save_new_videos
        [{ videoName := some "a", videoUrl := some "u1" },
         { videoName := none, videoUrl := some "u2" },
         { videoName := some "a", videoUrl := some "u3" },
         { videoName := some "b", videoUrl := some "u4" }]
        (PersistedFile.json
          (some [{ videoName := some "b", videoUrl := some "u0", downloaded := true }]))).2)).Nodup :=
  ⟨(C1_ingest_idempotent_dedup
      [{ videoName := some "a", videoUrl := some "u1" },
       { videoName := none, videoUrl := some "u2" },
       { videoName := some "a", videoUrl := some "u3" },
       { videoName := some "b", videoUrl := some "u4" }]
      (PersistedFile.json
        (some [{ videoName := some "b", videoUrl := some "u0", downloaded := true }]))).2.1
      "a" { videoName := some "a", videoUrl := some "u1" } (by decide) (by decide) (by decide),
   (C1_ingest_idempotent_dedup [{ videoName := some "b", videoUrl := some "u9" }]
      (PersistedFile.json
        (some [{ videoName := some "b", videoUrl := some "u0", downloaded := true }]))).2.2.1
      (by
        intro v hv n hn hne
        simp only [List.mem_singleton] at hv
        subst hv
        simp only [Option.some.injEq] at hn
        subst hn
        decide),
   (C1_ingest_idempotent_dedup
      [{ videoName := some "a", videoUrl := some "u1" },
       { videoName := none, videoUrl := some "u2" },
       { videoName := some "a", videoUrl := some "u3" },
       { videoName := some "b", videoUrl := some "u4" }]
      (PersistedFile.json
        (some [{ videoName := some "b", videoUrl := some "u0", downloaded := true }]))).2.2.2.2.2
      (by decide)⟩
